import Mathlib

/-!
Verification of the rapidx property-based testing library (Go).

Shallow embedding of the core of the library:
* `gen/types.go`   — `Size`, `Shrinker`, `Generator`, the process-wide shrink strategy;
* `gen/int64.go`   — `Int64Range` and `int64ShrinkInit` (queue/dedup-set shrinker);
* `gen/comb.go`    — `Const`, `OneOf`, `Weighted`, `Filter`;
* `prop/prop.go`   — `Config`, `effectiveSeed`, `ForAll` / `runSequential`;
* `quick/quick.go` — the state-machine runner (`commandSequenceGenerator.Generate`,
  `findMatchingCommand`, `executeStateMachine`, the validation loop of
  `TestStateMachine`).

Go's `*rand.Rand` is modelled as a pure stream of naturals read at an advancing
cursor; `r.Intn(n)` returns `stream pos % n` for `n > 0` and is undefined
(`none`, a Go panic) for `n ≤ 0`, exactly the `math/rand` contract.  Stateful
shrinker closures are modelled as explicit state machines.  Values `none`
returned by a generator model a Go panic.
-/

namespace Rapidx

/-- Deterministic random source: a stream of naturals and a cursor.
Models the draw sequence of a seeded `*rand.Rand`. -/
structure Rng where
  stream : Nat → Nat
  pos : Nat

/-- One raw draw from the stream. -/
def Rng.next (r : Rng) : Nat × Rng :=
  (r.stream r.pos, ⟨r.stream, r.pos + 1⟩)

/-- Model of `r.Intn(n)`: uniform value in `[0, n)` for `n > 0`;
`none` models the panic `math/rand` raises on `n ≤ 0`. -/
def Rng.intn (r : Rng) (n : Int) : Option (Int × Rng) :=
  if n ≤ 0 then none
  else
    let (v, r') := r.next
    some ((v : Int) % n, r')

/-- A 64-bit LCG step, standing in for Go's seeded source
(the spec only requires an LCG-equivalent deterministic stream). -/
def lcgStep (s : Nat) : Nat :=
  (6364136223846793005 * s + 1442695040888963407) % 2 ^ 64

/-- Random source constructed from a seed, as `rand.New(rand.NewSource(seed))`. -/
def rngOfSeed (seed : Int) : Rng :=
  ⟨fun i => lcgStep^[i + 1] (seed.emod (2 ^ 64)).toNat, 0⟩

/-- Shrink traversal strategy (`gen/types.go`: the process-wide
`shrinkStrategy` variable, `"bfs"` or `"dfs"`). -/
inductive Strategy where
  | bfs
  | dfs
deriving DecidableEq, Repr

/-- Go `gen.SetShrinkStrategy`: anything other than `"dfs"` normalises to BFS. -/
def normalizeStrategy (s : String) : Strategy :=
  if s = "dfs" then .dfs else .bfs

/-- Go `gen.Size`: the (Min, Max) size hint. -/
structure Size where
  Min : Int
  Max : Int
deriving DecidableEq, Repr

/-- A stateful shrinker closure (`gen.Shrinker[T]`), as a state machine:
`step state accept = (candidate?, state')`, where `none` is `ok == false`. -/
structure Shrinker (T : Type) : Type 1 where
  σ : Type
  state : σ
  step : σ → Bool → Option T × σ

/-- One call of the shrinker closure, returning the updated closure. -/
def Shrinker.stepS (s : Shrinker T) (accept : Bool) : Option T × Shrinker T :=
  let (o, st') := s.step s.state accept
  (o, ⟨s.σ, st', s.step⟩)

/-- The outputs of a shrinker over a finite sequence of `step accept` calls. -/
def shrinkerRun (s : Shrinker T) : List Bool → List (Option T)
  | [] => []
  | a :: as =>
    let (o, s') := s.stepS a
    o :: shrinkerRun s' as

/-- The empty shrinker `func(bool) (T, bool) { var z T; return z, false }`. -/
def emptyShrinker (T : Type) : Shrinker T :=
  ⟨Unit, (), fun u _ => (none, u)⟩

/-- Go `gen.Generator[T]`: `Generate(r, sz) → (value, shrinker)`, reading the
process-wide strategy (threaded explicitly here) and the rng (threaded as
state). `none` models a Go panic inside `Generate`. -/
def Generator (T : Type) : Type 1 :=
  Strategy → Rng → Size → Option ((T × Shrinker T) × Rng)

/-- Go `gen.Const(v)`: always `v`, with the empty shrinker; draws nothing. -/
def ConstGen (v : T) : Generator T :=
  fun _ r _ => some ((v, emptyShrinker T), r)

/-! ## `gen/int64.go` -/

/-- Go `clamp64`: constrain `x` into `[min, max]`. -/
def clamp64 (x mn mx : Int) : Int :=
  if x < mn then mn else if x > mx then mx else x

/-- Go `shrinkTarget64`: 0 if `0 ∈ [min, max]`, else the bound closest to 0. -/
def shrinkTarget64 (mn mx : Int) : Int :=
  if mn ≤ 0 ∧ 0 ≤ mx then 0 else if mn > 0 then mn else mx

/-- Go `midpointTowards64`: a bisection step from `a` towards `b`; Go's `/`
truncates towards zero, hence `Int.tdiv`. -/
def midpointTowards64 (a b : Int) : Int :=
  if a = b then a
  else
    let d := b - a
    let step := d.tdiv 2
    let step := if step = 0 then (if d > 0 then 1 else -1) else step
    a + step

/-- Go `stepTowards64`: one unit step from `a` towards `b`. -/
def stepTowards64 (a b : Int) : Int :=
  if a = b then a else if b > a then a + 1 else a - 1

/-- The mutable state captured by the closure returned by `int64ShrinkInit`:
bounds and target, the working minimum `cur`, the last proposed candidate
`last`, the dedup set `seen` and the frontier `queue`. -/
structure I64State where
  min : Int
  max : Int
  target : Int
  cur : Int
  last : Int
  seen : List Int
  queue : List Int
deriving DecidableEq, Repr

/-- The `push` helper of `int64ShrinkInit`: drop out-of-range and seen values,
otherwise record in the dedup set and append to the frontier. -/
def I64State.push (st : I64State) (x : Int) : I64State :=
  if x < st.min ∨ x > st.max then st
  else if x ∈ st.seen then st
  else { st with seen := x :: st.seen, queue := st.queue ++ [x] }

/-- The eight-iteration bisection series of `grow`
(`for i := 0; i < 8 && series != target; i++`). -/
def bisectLoop (base : Int) (st : I64State) : Nat → Int → I64State
  | 0, _ => st
  | fuel + 1, series =>
    if series = st.target then st
    else
      let series' := midpointTowards64 series st.target
      let st' := if series' ≠ base then st.push series' else st
      bisectLoop base st' fuel series'

/-- The `grow` helper of `int64ShrinkInit`: clear the frontier and push, in
order, the target, up to eight bisections, the unit step and the bounds. -/
def I64State.grow (st : I64State) (base : Int) : I64State :=
  let st := { st with queue := ([] : List Int) }
  let st := if base ≠ st.target then st.push st.target else st
  let st :=
    if base ≠ st.target then
      let next := midpointTowards64 base st.target
      let st := if next ≠ base then st.push next else st
      bisectLoop base st 8 next
    else st
  let st := if base ≠ st.target then st.push (stepTowards64 base st.target) else st
  let st := if base ≠ st.min then st.push st.min else st
  if base ≠ st.max then st.push st.max else st

/-- The `pop` helper: FIFO for BFS, LIFO for DFS; `none` when the frontier is
empty. -/
def popQ : Strategy → List α → Option (α × List α)
  | _, [] => none
  | .bfs, x :: xs => some (x, xs)
  | .dfs, x :: xs => some ((x :: xs).getLast (by simp), (x :: xs).dropLast)

/-- One call of the closure returned by `int64ShrinkInit`: on `accept` with a
moved `last`, rebase (`cur = last; grow(cur)`); then pop the frontier; a popped
candidate becomes the new `last`. -/
def i64Step (strat : Strategy) (st : I64State) (accept : Bool) :
    Option Int × I64State :=
  let st := if accept ∧ st.last ≠ st.cur then (({ st with cur := st.last } : I64State).grow st.last) else st
  match popQ strat st.queue with
  | none => (none, st)
  | some (v, q') => (some v, { st with queue := q', last := v })

/-- The outputs of the `int64ShrinkInit` closure over a finite call sequence. -/
def i64Run (strat : Strategy) (st : I64State) : List Bool → List (Option Int)
  | [] => []
  | a :: as =>
    let (o, st') := i64Step strat st a
    o :: i64Run strat st' as

/-- Go `int64ShrinkInit(start, min, max)`: clamp the start, seed the dedup set
with it, grow the initial frontier, and return it with the closure state. -/
def int64ShrinkInit (start mn mx : Int) : Int × I64State :=
  let cur := clamp64 start mn mx
  let st : I64State :=
    { min := mn, max := mx, target := shrinkTarget64 mn mx
      cur := cur, last := cur, seen := [cur], queue := [] }
  (cur, st.grow cur)

/-- The `int64ShrinkInit` closure packaged as a `Shrinker`. -/
def int64Shrinker (strat : Strategy) (st : I64State) : Shrinker Int :=
  ⟨I64State, st, i64Step strat⟩

/-- Go `int64` wraparound of an (unbounded) integer: the value of the Go
expression `max - min + 1` of `Int64Range`. -/
def wrap64 (x : Int) : Int :=
  (x + 2 ^ 63) % 2 ^ 64 - 2 ^ 63

/-- Go `Int64Range(min, max).Generate` before packaging: swap inverted bounds,
draw `v := min + r.Intn(int(max-min+1))` (`none` models the `Intn` panic on a
non-positive wrapped argument) and initialise the shrinker. -/
def int64RangeGen (mn mx : Int) (r : Rng) : Option ((Int × I64State) × Rng) :=
  let mn' := if mn > mx then mx else mn
  let mx' := if mn > mx then mn else mx
  match r.intn (wrap64 (mx' - mn' + 1)) with
  | none => none
  | some (k, r') => some ((int64ShrinkInit (mn' + k) mn' mx', r'))

/-- Go `gen.Int64Range(min, max)` as a `Generator`. -/
def Int64Range (mn mx : Int) : Generator Int :=
  fun strat r _ =>
    match int64RangeGen mn mx r with
    | none => none
    | some ((v, st), r') => some ((v, int64Shrinker strat st), r')

/-! ## `gen/comb.go` -/

/-- The inner loop of the `Filter` shrinker,
`for { nv, ok := s(accept); if !ok ...; if pred(nv) ...; accept = false }`.
The Go loop is unbounded (it terminates when the underlying shrinker exhausts
or a candidate passes `pred`); it is embedded with explicit fuel, one unit per
iteration.  With the always-true predicate the first iteration returns, so any
fuel `≥ 1` is faithful there. -/
def filterStepAux (pred : T → Bool) (step : σ → Bool → Option T × σ) :
    Nat → σ → Bool → Option T × σ
  | 0, st, _ => (none, st)
  | fuel + 1, st, accept =>
    match step st accept with
    | (none, st') => (none, st')
    | (some v, st') =>
      if pred v then (some v, st') else filterStepAux pred step fuel st' false

/-- The `Filter` shrinker wrapping an underlying shrinker. -/
def filterShrinker (pred : T → Bool) (fuel : Nat) (s : Shrinker T) : Shrinker T :=
  ⟨s.σ, s.state, filterStepAux pred s.step fuel⟩

/-- The generation retry loop of `Filter`
(`for tries := 0; tries < maxTries; tries++`): `some (none, r)` means the
tries were exhausted without a passing value, outer `none` an underlying
panic. -/
def filterGenLoop (g : Generator T) (pred : T → Bool) (strat : Strategy)
    (sz : Size) : Nat → Rng → Option (Option (T × Shrinker T) × Rng)
  | 0, r => some (none, r)
  | tries + 1, r =>
    match g strat r sz with
    | none => none
    | some ((v, s), r') =>
      if pred v then some (some (v, s), r') else filterGenLoop g pred strat sz tries r'

/-- Go `gen.Filter(g, pred, maxTries)`: normalise `maxTries ≤ 0` to 1000, retry
generation until `pred` passes, and wrap the shrinker so that candidates
failing `pred` are skipped.  On exhaustion of the tries, the Go zero value
with an empty shrinker is returned.  `fuel` bounds the unbounded skip loop of
the shrinker (see `filterStepAux`). -/
def FilterGen [Inhabited T] (g : Generator T) (pred : T → Bool) (maxTries : Int)
    (fuel : Nat) : Generator T :=
  fun strat r sz =>
    let mt := if maxTries ≤ 0 then (1000 : Int) else maxTries
    match filterGenLoop g pred strat sz mt.toNat r with
    | none => none
    | some (none, r') => some ((default, emptyShrinker T), r')
    | some (some (v, s), r') => some ((v, filterShrinker pred fuel s), r')

/-- Go `gen.Weighted(weight, gs...).Generate` up to the shrinker closure: the
generator index is drawn by `idx := r.Intn(len(gs))`; the `weight` function is
a parameter of the Go function but is never applied in its body.  The result
carries the chosen generator's value and shrinker, the neighbour index queue
built for shrink-time migration, and the advanced rng.  `none` models the
construction-time panic on an empty generator list (`Intn(0)`) and panics of
the chosen generator. -/
def weightedGenerate (weight : T → Rat) (gs : List (Generator T)) :
    Strategy → Rng → Size → Option (((T × Shrinker T) × List Nat) × Rng) :=
  fun strat r sz =>
    match r.intn (gs.length : Int) with
    | none => none
    | some (idx, r') =>
      match gs.get? idx.toNat with
      | none => none
      | some g =>
        match g strat r' sz with
        | none => none
        | some ((val, shrink), r'') =>
          let neighbors := ((List.range gs.length).filter (fun i => i ≠ idx.toNat))
          some (((val, shrink), neighbors), r'')

/-- Go `gen.OneOf(gs...)` is literally `Weighted(λ_. 1.0, gs...)`. -/
def oneOfGenerate (gs : List (Generator T)) :
    Strategy → Rng → Size → Option (((T × Shrinker T) × List Nat) × Rng) :=
  weightedGenerate (fun _ => 1) gs

/-- The outputs of the `Weighted` shrinker closure over a finite call
sequence, carrying its captured state (current inner shrinker, pending
neighbour indices, rng) explicitly: on inner exhaustion it migrates to the
next neighbour by generating a fresh value.  The Go closure aliases the
runner's `*rand.Rand`; here the rng captured at generation time is threaded.
A neighbour generator panic is modelled as exhaustion. -/
def weightedShrinkRun (gs : List (Generator T)) (sz : Size) (strat : Strategy) :
    Shrinker T → List Nat → Rng → List Bool → List (Option T)
  | _, _, _, [] => []
  | inner, neighbors, r, accept :: rest =>
    match inner.stepS accept with
    | (some v, inner') => some v :: weightedShrinkRun gs sz strat inner' neighbors r rest
    | (none, inner') =>
      match neighbors with
      | [] => none :: weightedShrinkRun gs sz strat inner' [] r rest
      | j :: ns =>
        match (gs.get? j).bind (fun g => g strat r sz) with
        | some ((nv, nshr), r') => some nv :: weightedShrinkRun gs sz strat nshr ns r' rest
        | none => none :: weightedShrinkRun gs sz strat inner' ns r rest

/-! ## `prop/prop.go` -/

/-- Go `prop.Config`. -/
structure Config where
  Seed : Int
  Examples : Int
  MaxShrink : Int
  ShrinkStrat : String
  StopOnFirstFailure : Bool
  Parallelism : Int

/-- Go `Config.effectiveSeed`: the configured seed, or the wall clock when it is
zero.  The clock is an explicit oracle input here. -/
def effectiveSeed (cfg : Config) (clock : Int) : Int :=
  if cfg.Seed ≠ 0 then cfg.Seed else clock

/-- The payload of the single fatal report of `runSequential`:
seed, `examples_run`, `shrunk_steps`, the minimal counterexample, and the
replay hint string. -/
structure FatalReport (T : Type) where
  seed : Int
  examplesRun : Int
  shrunkSteps : Int
  minimum : T
  replay : String
deriving DecidableEq

/-- The replay hint built by `runSequential`:
`go test -run '^<t.Name()>$/<name>(/|$)' -rapidx.seed=<seed>`. -/
def replayHint (tName name : String) (seed : Int) : String :=
  "go test -run '^" ++ tName ++ "$/" ++ name ++ "(/|$)' -rapidx.seed=" ++ toString seed

/-- Observable outcome of a sequential run: the ordered subtest names, and
either a clean finish, the single fatal report (`t.Fatalf` aborts the test
function, so the run ends there), or a generator panic. -/
inductive SeqResult (T : Type) where
  | ok (subtests : List String)
  | fatal (subtests : List String) (report : FatalReport T)
  | panicked (subtests : List String)
deriving DecidableEq

/-- The ordered subtest names of a sequential run. -/
def SeqResult.subtestNames : SeqResult T → List String
  | .ok l => l
  | .fatal l _ => l
  | .panicked l => l

/-- The shrink loop of `runSequential` (`for steps < cfg.MaxShrink`), fueled
by the remaining step budget: ask the shrinker with the previous accept flag,
stop on exhaustion, otherwise run the candidate in subtest
`<name>/shrink#<steps>` and update the working minimum.  Returns the minimum,
the step count and the shrink subtest names. -/
def shrinkLoop (pred : T → Bool) (name : String) :
    Nat → Shrinker T → Bool → T → Nat → List String → T × Nat × List String
  | 0, _, _, minv, steps, snames => (minv, steps, snames.reverse)
  | fuel + 1, shr, acceptedPrev, minv, steps, snames =>
    match shr.stepS acceptedPrev with
    | (none, _) => (minv, steps, snames.reverse)
    | (some next, shr') =>
      let steps' := steps + 1
      let sname := name ++ "/shrink#" ++ toString steps'
      if pred next then
        shrinkLoop pred name fuel shr' false minv steps' (sname :: snames)
      else
        shrinkLoop pred name fuel shr' true next steps' (sname :: snames)

/-- The example loop of `runSequential`: generate, run subtest `ex#<i+1>`,
continue on pass; on failure run the shrink loop and emit the fatal report.
`t.Fatalf` calls `runtime.Goexit`, aborting the enclosing test function, so
the loop ends at the first failing example; in the Go source the
`if cfg.StopOnFirstFailure { return }` lines after `t.Fatalf` are unreachable
and leave no trace here. -/
def runSeqAux (strat : Strategy) (g : Generator T) (pred : T → Bool)
    (tName : String) (seed : Int) (maxShrink : Nat) :
    Nat → Nat → Rng → List String → SeqResult T
  | 0, _, _, acc => .ok acc.reverse
  | remaining + 1, i, r, acc =>
    match g strat r ⟨0, 0⟩ with
    | none => .panicked acc.reverse
    | some ((val, shr), r') =>
      let name := "ex#" ++ toString (i + 1)
      if pred val then
        runSeqAux strat g pred tName seed maxShrink remaining (i + 1) r' (name :: acc)
      else
        let (minv, steps, snames) := shrinkLoop pred name maxShrink shr true val 0 []
        .fatal ((name :: acc).reverse ++ snames)
          ⟨seed, (i : Int) + 1, steps, minv, replayHint tName name seed⟩

/-- Go `prop.ForAll` under a configuration: derive the effective seed, build the
rng, set the strategy, and dispatch; only the sequential branch
(`cfg.Parallelism ≤ 1`) is modelled (`none` stands for the parallel branch). -/
def forAllTrace (cfg : Config) (g : Generator T) (pred : T → Bool)
    (tName : String) (clock : Int) : Option (SeqResult T) :=
  if cfg.Parallelism ≤ 1 then
    let seed := effectiveSeed cfg clock
    let r := rngOfSeed seed
    let strat := normalizeStrategy cfg.ShrinkStrat
    some (runSeqAux strat g pred tName seed cfg.MaxShrink.toNat cfg.Examples.toNat 0 r [])
  else none

/-! ## `quick/quick.go` — the state-machine runner -/

/-- Go `prop.Command[S, C]`: a command descriptor.  Go's `error` results are
modelled as `Option String` (`none` = nil); the optional pre/postconditions
as `Option`-valued fields (`none` = nil function field). -/
structure CommandDescr (S C : Type) : Type 1 where
  Name : String
  Generator : Generator C
  Execute : S → C → S × Option String
  Precondition : Option (S → C → Bool)
  Postcondition : Option (S → C → S → Bool)

/-- Go `prop.StateMachine[S, C]`. -/
structure StateMachine (S C : Type) : Type 1 where
  InitialState : S
  Commands : List (CommandDescr S C)

/-- Go `prop.StateTransition[S, C]`. -/
structure StateTransition (S C : Type) where
  Command : C
  FromState : S
  ToState : S
  Error : Option String
deriving DecidableEq

/-- Go `prop.StateMachineResult[S, C]`. -/
structure SMResult (S C : Type) where
  FinalState : S
  ExecutionHistory : List (StateTransition S C)
  SkippedCommands : List C
deriving DecidableEq

/-- The `maxLen` resolution at the top of `commandSequenceGenerator.Generate`:
`maxLen := g.maxLength; if maxLen <= 0 { maxLen = sz.Max; if maxLen <= 0 {
maxLen = 10 } }`. -/
def resolveSeqMaxLen (maxLength szMax : Int) : Int :=
  if maxLength ≤ 0 then (if szMax ≤ 0 then 10 else szMax) else maxLength

/-- The per-position loop of `commandSequenceGenerator.Generate` for a
non-empty command list: draw a command index uniformly, then run that
command's generator; recursion on the remaining length. -/
def genCommands (cmds : List (CommandDescr S C)) (strat : Strategy) (sz : Size) :
    Nat → Rng → Option ((List C × List (Shrinker C)) × Rng)
  | 0, r => some (([], []), r)
  | n + 1, r =>
    match r.intn (cmds.length : Int) with
    | none => none
    | some (idx, r') =>
      match cmds.get? idx.toNat with
      | none => none
      | some cd =>
        match cd.Generator strat r' sz with
        | none => none
        | some ((v, s), r'') =>
          (genCommands cmds strat sz n r'').map fun p => ((v :: p.1.1, s :: p.1.2), p.2)

/-- Go `commandSequenceGenerator.Generate`: resolve `maxLen`, draw the length
`r.Intn(maxLen+1)` (uniform in `[0, maxLen]`), and generate each position.
With an empty command list every position is skipped and the final sequence is
forced empty, which the explicit empty branch reproduces. -/
def commandSequenceGenerate (sm : StateMachine S C) (maxLength : Int)
    (strat : Strategy) (r : Rng) (sz : Size) :
    Option ((List C × List (Shrinker C)) × Rng) :=
  let maxLen := resolveSeqMaxLen maxLength sz.Max
  match r.intn (maxLen + 1) with
  | none => none
  | some (len, r') =>
    if sm.Commands.isEmpty then some (([], []), r')
    else genCommands sm.Commands strat sz len.toNat r'

/-- The generated command list of `commandSequenceGenerate` (the observable
sequence value). -/
def genSeqCommands (sm : StateMachine S C) (maxLength : Int) (strat : Strategy)
    (r : Rng) (sz : Size) : Option (List C) :=
  (commandSequenceGenerate sm maxLength strat r sz).map fun p => p.1.1

/-- The per-element branch of the sequence shrinker closure
(`for i := len(commands)-1; i >= 0; i--`): ask `shrinkers[i](accept)`, on
success substitute position `i`.  It is reached only when `commands` is empty
(so the index list is empty), because the one-shorter branch returns first
otherwise. -/
def tryShrinkIdx (commands : List C) (accept : Bool) :
    List (Shrinker C) → List Nat → Option (List C) × List (Shrinker C)
  | shrinkers, [] => (none, shrinkers)
  | shrinkers, i :: rest =>
    match shrinkers.get? i with
    | none => tryShrinkIdx commands accept shrinkers rest
    | some s =>
      match s.stepS accept with
      | (some newCmd, s') => (some (commands.set i newCmd), shrinkers.set i s')
      | (none, s') => tryShrinkIdx commands accept (shrinkers.set i s') rest

/-- One call of the sequence shrinker closure of
`commandSequenceGenerator.Generate`.  The closure captures `commands` and
`sequence` immutably: the one-shorter branch (`Strategy 1`) rebuilds
`commands[:len-1]` from the captured slice on every call and returns `ok =
true`, and only the element shrinkers (`Strategy 2`, dead for non-empty
sequences) carry state. -/
def seqShrinkStep (commands : List C) (shrinkers : List (Shrinker C))
    (accept : Bool) : Option (List C) × List (Shrinker C) :=
  if 0 < commands.length then
    (some (commands.take (commands.length - 1)), shrinkers)
  else
    tryShrinkIdx commands accept shrinkers (List.range commands.length).reverse

/-- The outputs of the sequence shrinker closure over a finite call sequence
(`commands` is the captured generated sequence, fixed for the closure's
lifetime). -/
def seqShrinkRun (commands : List C) :
    List (Shrinker C) → List Bool → List (Option (List C))
  | _, [] => []
  | shrinkers, a :: as =>
    let (o, shrinkers') := seqShrinkStep commands shrinkers a
    o :: seqShrinkRun commands shrinkers' as

/-- Go `findMatchingCommand`: returns `&sm.Commands[0]` whenever any command
exists, ignoring the command instance (the fallback-to-first heuristic). -/
def findMatchingCommand (sm : StateMachine S C) (_cmd : C) :
    Option (CommandDescr S C) :=
  sm.Commands.head?

/-- The loop body of `executeStateMachine`: match (always the first
descriptor), check its precondition, execute, record the transition, and
advance the state only when no error occurred. -/
def execSMAux (sm : StateMachine S C) :
    List C → S → List (StateTransition S C) → List C → SMResult S C
  | [], state, hist, skipped => ⟨state, hist.reverse, skipped.reverse⟩
  | cmd :: rest, state, hist, skipped =>
    match findMatchingCommand sm cmd with
    | none => execSMAux sm rest state hist (cmd :: skipped)
    | some m =>
      let preOk := match m.Precondition with
        | none => true
        | some pre => pre state cmd
      if preOk then
        let (newState, err) := m.Execute state cmd
        let tr : StateTransition S C := ⟨cmd, state, newState, err⟩
        let state' := if err.isNone then newState else state
        execSMAux sm rest state' (tr :: hist) skipped
      else
        execSMAux sm rest state hist (cmd :: skipped)

/-- Go `executeStateMachine(sm, sequence)`. -/
def executeStateMachine (sm : StateMachine S C) (sequence : List C) :
    SMResult S C :=
  execSMAux sm sequence sm.InitialState [] []

/-- A non-fatal test error raised by the validation loop of
`TestStateMachine` (`t.Errorf`), modelled structurally: a postcondition
failure names the command whose postcondition was evaluated; an execution
error carries the error string. -/
inductive TestError where
  | postconditionFailed (name : String)
  | executionError (msg : String)
deriving DecidableEq

/-- The validation of one transition in `TestStateMachine`: the inner
`for i := range sm.Commands { executedCmd = &sm.Commands[i]; break }` loop
always selects the FIRST descriptor; its postcondition (if any) is checked on
the transition, then any non-nil execution error is reported. -/
def checkTransition (sm : StateMachine S C) (tr : StateTransition S C) :
    List TestError :=
  let postErrs :=
    match sm.Commands.head? with
    | none => []
    | some c0 =>
      match c0.Postcondition with
      | none => []
      | some post =>
        if post tr.FromState tr.Command tr.ToState then []
        else [TestError.postconditionFailed c0.Name]
  let execErrs :=
    match tr.Error with
    | none => []
    | some e => [TestError.executionError e]
  postErrs ++ execErrs

/-- The validation loop of `TestStateMachine` over the whole history. -/
def checkTransitions (sm : StateMachine S C)
    (hist : List (StateTransition S C)) : List TestError :=
  hist.flatMap (checkTransition sm)

/-- The sequence-length bound hard-wired by `TestStateMachine`
(`maxLength: 20`). -/
def testStateMachineMaxLength : Int := 20

/-! ## Concrete fixtures used by witnesses and counterexamples -/

/-- Random source whose every raw draw is `k`. -/
def rngConst (k : Nat) : Rng := ⟨fun _ => k, 0⟩

/-- Command descriptor `A`: generates the command value `0`, adds the
command to the state, trivial postcondition. -/
def cmdA : CommandDescr Int Int :=
  { Name := "A", Generator := ConstGen 0,
    Execute := fun s c => (s + c, none),
    Precondition := none,
    Postcondition := some (fun _ _ _ => true) }

/-- Command descriptor `B`: generates the command value `1`, subtracts the
command from the state, never-satisfied postcondition. -/
def cmdB : CommandDescr Int Int :=
  { Name := "B", Generator := ConstGen 1,
    Execute := fun s c => (s - c, none),
    Precondition := none,
    Postcondition := some (fun _ _ _ => false) }

/-- A two-command state machine over integer states. -/
def smAB : StateMachine Int Int := ⟨0, [cmdA, cmdB]⟩

/-! ## C1 — shrinker exhaustion under repeated `step(false)`

The claim quantifies over every generator, including the state-machine
command-sequence generator.  The sequence shrinker closure of
`commandSequenceGenerator.Generate` captures `commands` immutably and its
one-smaller branch returns first whenever the sequence is non-empty, so every
call — whatever the accept flag — yields the same one-shorter prefix with
`ok = true`: repeated `step(false)` never reaches `ok = false`. -/

/-- Helper: for a non-empty captured sequence, one call of the sequence
shrinker closure always yields the one-shorter prefix and leaves the element
shrinkers untouched. -/
theorem seqShrinkStep_nonempty {C : Type} (commands : List C)
    (shrinkers : List (Shrinker C)) (a : Bool) (hne : commands ≠ []) :
    seqShrinkStep commands shrinkers a =
      (some (commands.take (commands.length - 1)), shrinkers) := by
  unfold seqShrinkStep
  rw [if_pos (List.length_pos.mpr hne)]

/-- C1: refutation at the command-sequence generator.  For every non-empty
generated sequence, every output of any finite run of `step(false)` calls is
`some` of the same one-shorter prefix — exhaustion (`ok = false`) is never
reached, contradicting the claimed finite termination of repeated
`step(false)`. -/
theorem seqShrink_stepFalse_never_exhausts {C : Type} (commands : List C)
    (shrinkers : List (Shrinker C)) (n : Nat) (o : Option (List C))
    (hne : commands ≠ [])
    (ho : o ∈ seqShrinkRun commands shrinkers (List.replicate n false)) :
    o = some (commands.take (commands.length - 1)) := by
  induction n generalizing shrinkers with
  | zero => simp [seqShrinkRun] at ho
  | succ n ih =>
    rw [List.replicate_succ] at ho
    simp only [seqShrinkRun, seqShrinkStep_nonempty commands shrinkers false hne,
      List.mem_cons] at ho
    rcases ho with h | h
    · exact h
    · exact ih shrinkers h

/-- Witness for C1 at the length-one sequence `[0]` and three calls. -/
theorem seqShrink_stepFalse_never_exhausts_witness :
    ([0] : List Int) ≠ [] ∧
      (some [] : Option (List Int)) =
        some (([0] : List Int).take (([0] : List Int).length - 1)) :=
  ⟨by decide,
    seqShrink_stepFalse_never_exhausts [0] [emptyShrinker Int] 3 (some [])
      (by decide) (by decide)⟩

/-! ## C2 — no candidate yielded twice -/

/-- C2: refutation at the command-sequence generator.  Two consecutive
`step(false)` calls on the sequence shrinker for the generated sequence `[0]`
both yield the candidate `[]` — the same candidate value is yielded twice,
and the closure maintains no dedup set at all. -/
theorem seqShrink_yields_duplicate :
    seqShrinkRun ([0] : List Int) [emptyShrinker Int] [false, false] =
      [some [], some []] := by decide

/-! ## C5 — Weighted choice probability -/

/-- C5: the body of `Weighted` never applies its `weight` parameter — the
generator index is drawn by `r.Intn(len(gs))` — so for every weight function
the generated result (value, shrinker, neighbour queue, rng) is identical to
that of `OneOf`'s constant-weight instance.  No weight function can make the
choice distribution differ from the uniform one. -/
theorem weighted_ignores_weight {T : Type} (weight : T → Rat)
    (gs : List (Generator T)) (strat : Strategy) (r : Rng) (sz : Size) :
    weightedGenerate weight gs strat r sz = oneOfGenerate gs strat r sz := rfl

/-! ## C6 — behaviour after exhaustion

The rebase branch of the `int64ShrinkInit` closure runs before the pop, so a
call with `accept = true` after exhaustion regrows the frontier from the last
proposed candidate and can yield again.  Only calls with `accept = false`
leave an exhausted shrinker exhausted. -/

/-- C6 counterexample: for the shrinker of `int64ShrinkInit(4, -4, 4)` under
BFS, six `step(false)` calls drain the frontier (the sixth returns
`ok = false`), yet a seventh call with `accept = true` rebases on the last
proposed candidate `-4` and yields the fresh candidate `-2`. -/
theorem int64Shrink_yields_after_exhaustion :
    i64Run .bfs (int64ShrinkInit 4 (-4) 4).2 (List.replicate 6 false ++ [true]) =
      [some 0, some 2, some 1, some 3, some (-4), none, some (-2)] := by decide

/-- Helper: popping an empty frontier fails, and conversely. -/
theorem popQ_eq_none {α : Type} (strat : Strategy) (q : List α) :
    popQ strat q = none ↔ q = [] := by
  cases q with
  | nil => cases strat <;> simp [popQ]
  | cons x xs => cases strat <;> simp [popQ]

/-- Helper: a call that returns `ok = false` leaves the frontier empty. -/
theorem i64Step_none_queue (strat : Strategy) (st : I64State) (a : Bool)
    (h : (i64Step strat st a).1 = none) : (i64Step strat st a).2.queue = [] := by
  unfold i64Step at *
  set st1 := if a ∧ st.last ≠ st.cur
    then (({ st with cur := st.last } : I64State).grow st.last) else st with hst1
  cases hpop : popQ strat st1.queue with
  | none => simp only [hpop] at h ⊢; exact (popQ_eq_none strat st1.queue).mp hpop
  | some p => simp [hpop] at h

/-- Helper: with an empty frontier, a `step(false)` call yields nothing and
does not change the state (no rebase, failed pop). -/
theorem i64Step_false_empty (strat : Strategy) (st : I64State)
    (h : st.queue = []) : i64Step strat st false = (none, st) := by
  unfold i64Step
  simp [h, popQ]

/-- Helper: from an empty frontier, every output of a pure `step(false)` run
is `ok = false`. -/
theorem i64Run_false_empty (strat : Strategy) (st : I64State) (n : Nat)
    (h : st.queue = []) :
    i64Run strat st (List.replicate n false) = List.replicate n none := by
  induction n with
  | zero => simp [i64Run]
  | succ n ih =>
    rw [List.replicate_succ]
    simp only [i64Run, i64Step_false_empty strat st h]
    rw [List.replicate_succ]
    exact congrArg _ ih

/-- C6 as amended: once a call of the `int64ShrinkInit` closure has returned
`ok = false`, every subsequent call with `accept = false` also returns
`ok = false`; only `accept = true` (rebasing) can make it yield again. -/
theorem int64Shrink_exhaustion_permanent_under_reject (strat : Strategy)
    (st : I64State) (a : Bool) (n : Nat) (o : Option Int)
    (h : (i64Step strat st a).1 = none)
    (ho : o ∈ i64Run strat (i64Step strat st a).2 (List.replicate n false)) :
    o = none := by
  rw [i64Run_false_empty strat _ n (i64Step_none_queue strat st a h)] at ho
  exact List.eq_of_mem_replicate ho

/-- Witness for the amended C6 at a state whose frontier is already empty. -/
theorem int64Shrink_exhaustion_permanent_witness :
    (i64Step .bfs ⟨0, 10, 0, 5, 5, [5], []⟩ false).1 = none ∧
      (none : Option Int) = none :=
  ⟨by decide,
    int64Shrink_exhaustion_permanent_under_reject .bfs ⟨0, 10, 0, 5, 5, [5], []⟩
      false 1 none (by decide) (by decide)⟩

/-! ## C3 — determinism at parallelism 1

In this pure embedding the only nondeterministic inputs of a sequential run
are the wall clock (consulted by `effectiveSeed` only when the seed is zero);
the theorem states that with a nonzero seed the whole observable trace —
subtest names in order, the minimal counterexample and the replay hint in the
fatal report — is independent of the clock, hence identical across runs. -/

/-- C3: with a fixed nonzero seed and parallelism 1, two runs of `ForAll`
over the same generator and predicate produce identical traces: identical
subtest sequences, identical minimal counterexamples and identical replay
hints, whatever the wall clock reads. -/
theorem forAll_deterministic_seeded {T : Type} (cfg : Config) (g : Generator T)
    (pred : T → Bool) (tName : String) (clock₁ clock₂ : Int)
    (hseed : cfg.Seed ≠ 0) (_hpar : cfg.Parallelism ≤ 1) :
    forAllTrace cfg g pred tName clock₁ = forAllTrace cfg g pred tName clock₂ := by
  unfold forAllTrace effectiveSeed
  simp only [if_pos hseed]

/-- Concrete configuration for the C3 witness. -/
def cfgC3 : Config := ⟨5, 2, 3, "bfs", true, 1⟩

/-- Witness for C3 with two different clock values. -/
theorem forAll_deterministic_seeded_witness :
    cfgC3.Seed ≠ 0 ∧ cfgC3.Parallelism ≤ 1 ∧
      forAllTrace cfgC3 (ConstGen (1 : Int)) (fun _ => true) "p" 3 =
        forAllTrace cfgC3 (ConstGen (1 : Int)) (fun _ => true) "p" 4 :=
  ⟨by decide, by decide,
    forAll_deterministic_seeded cfgC3 (ConstGen (1 : Int)) (fun _ => true) "p" 3 4
      (by decide) (by decide)⟩

/-! ## C4 — behaviour after the fatal failure

`t.Fatalf` calls `t.FailNow`, which aborts the goroutine running the enclosing
test function (`runtime.Goexit`); the
`if cfg.StopOnFirstFailure { return }` after it in `runSequential` is
unreachable.  The runner therefore always stops at the first failing example,
whatever the flag. -/

/-- Concrete configuration for the C4 counterexample: two examples,
`StopOnFirstFailure = false`. -/
def cfgC4 : Config := ⟨1, 2, 3, "bfs", false, 1⟩

/-- C4 counterexample: with `stop_on_first_failure = false` and two
configured examples of an always-failing predicate, the run ends at the
fatal report of `ex#1` and `ex#2` is never generated or run — the claimed
continuation to the next example does not happen. -/
theorem runner_stops_despite_flag_false :
    forAllTrace cfgC4 (ConstGen (42 : Int)) (fun _ => false) "p" 9 =
      some (.fatal ["ex#1"]
        ⟨1, 1, 0, 42, "go test -run '^p$/ex#1(/|$)' -rapidx.seed=1"⟩) ∧
      cfgC4.StopOnFirstFailure = false ∧ cfgC4.Examples = 2 ∧
      ¬ "ex#2" ∈ (forAllTrace cfgC4 (ConstGen (42 : Int)) (fun _ => false) "p" 9).elim
          [] SeqResult.subtestNames := by decide

/-- C4 as amended: the sequential trace does not depend on
`stop_on_first_failure` at all — after the fatal property failure is emitted
the runner returns in either case, because the fatal emission aborts the
enclosing test function. -/
theorem runner_trace_ignores_stop_flag {T : Type} (cfg : Config) (b : Bool)
    (g : Generator T) (pred : T → Bool) (tName : String) (clock : Int) :
    forAllTrace { cfg with StopOnFirstFailure := b } g pred tName clock =
      forAllTrace cfg g pred tName clock := rfl

/-! ## C7 — sequence length bound

`commandSequenceGenerator.Generate` uses `sz.Max` only when the configured
`maxLength` is non-positive; `TestStateMachine` hard-wires `maxLength = 20`,
so the runner's size max never participates, even when smaller. -/

/-- C7 counterexample: with the `TestStateMachine` maximum (20) and a runner
size max of 5, the generator can produce a sequence of length 20 — the
claimed bound `L = size max (5)` when the size max is smaller than the
default is violated. -/
theorem seqGen_ignores_runner_size_max :
    genSeqCommands smAB testStateMachineMaxLength .bfs (rngConst 20) ⟨0, 5⟩ =
        some (List.replicate 20 0) ∧
      (List.replicate 20 (0 : Int)).length = 20 ∧ ¬ (20 ≤ 5) := by decide

/-- Helper: the per-position generation loop produces exactly as many
commands as the drawn length. -/
theorem genCommands_length {S C : Type} (cmds : List (CommandDescr S C))
    (strat : Strategy) (sz : Size) (n : Nat) (r : Rng)
    (p : (List C × List (Shrinker C)) × Rng)
    (h : genCommands cmds strat sz n r = some p) : p.1.1.length = n := by
  induction n generalizing r p with
  | zero =>
    unfold genCommands at h
    cases h
    rfl
  | succ n ih =>
    unfold genCommands at h
    split at h
    · cases h
    · split at h
      · cases h
      · split at h
        · cases h
        · rcases Option.map_eq_some'.mp h with ⟨p', hp', rfl⟩
          simpa using ih _ p' hp'

/-- C7 as amended: through `TestStateMachine` (configured maximum 20) the
generated sequence length is always at most 20, whatever the runner size
hint, and it equals the uniform draw `r.Intn(21)` — i.e. length uniform in
`[0, 20]`, with the runner's size max playing no role. -/
theorem seqGen_length_uniform_twenty {S C : Type} (sm : StateMachine S C)
    (strat : Strategy) (r : Rng) (sz : Size) (cs : List C)
    (hne : sm.Commands ≠ [])
    (h : genSeqCommands sm testStateMachineMaxLength strat r sz = some cs) :
    cs.length ≤ 20 ∧ (cs.length : Int) = (r.stream r.pos : Int) % 21 := by
  have hk0 : (0 : Int) ≤ (r.stream r.pos : Int) % 21 := Int.emod_nonneg _ (by norm_num)
  have hk1 : (r.stream r.pos : Int) % 21 < 21 := Int.emod_lt_of_pos _ (by norm_num)
  unfold genSeqCommands commandSequenceGenerate testStateMachineMaxLength
    resolveSeqMaxLen at h
  rw [if_neg (by norm_num : ¬ (20 : Int) ≤ 0)] at h
  split at h
  · rename_i hemp
    exact absurd (List.isEmpty_iff.mp hemp) hne
  · dsimp only at h
    split at h
    · cases h
    · rename_i len r₂ heq
      rcases Option.map_eq_some'.mp h with ⟨p, hp, rfl⟩
      have hlen : len = (r.stream r.pos : Int) % 21 ∧ 0 ≤ len := by
        unfold Rng.intn Rng.next at heq
        rw [if_neg (by norm_num : ¬ (20 + 1 : Int) ≤ 0)] at heq
        cases heq
        exact ⟨by norm_num, by simpa using hk0⟩
      rw [genCommands_length sm.Commands strat sz _ _ p hp]
      omega

/-- Witness for the amended C7: a five-element sequence drawn with every raw
draw equal to 5. -/
theorem seqGen_length_uniform_twenty_witness :
    smAB.Commands ≠ [] ∧
      genSeqCommands smAB testStateMachineMaxLength .bfs (rngConst 5) ⟨0, 0⟩ =
        some [1, 1, 1, 1, 1] ∧
      (([1, 1, 1, 1, 1] : List Int).length ≤ 20 ∧
        (([1, 1, 1, 1, 1] : List Int).length : Int) =
          ((rngConst 5).stream (rngConst 5).pos : Int) % 21) :=
  ⟨List.cons_ne_nil _ _, by decide,
    seqGen_length_uniform_twenty smAB .bfs (rngConst 5) ⟨0, 0⟩ [1, 1, 1, 1, 1]
      (List.cons_ne_nil _ _) (by decide)⟩

/-! ## C8 — which command's postcondition is evaluated

The validation loop of `TestStateMachine` resolves the "executed command" by
a `for ... break` that always selects `sm.Commands[0]`, so the postcondition
evaluated on every transition is the first descriptor's, not the owning
command's. -/

/-- C8 counterexample: in `smAB` the rng draw selects command `B` (its
generator produces the instance `1`), `B`'s postcondition rejects every
transition, yet the validation of the executed history raises no error at
all: the code consulted `A`'s (trivially true) postcondition instead of the
owning command `B`'s. -/
theorem postcondition_not_owner_cex :
    genSeqCommands smAB testStateMachineMaxLength .bfs (rngConst 1) ⟨0, 0⟩ =
        some [1] ∧
      (executeStateMachine smAB [1]).ExecutionHistory =
        [⟨1, 0, 1, none⟩] ∧
      (cmdB.Postcondition.map fun post => post 0 1 1) = some false ∧
      checkTransitions smAB (executeStateMachine smAB [1]).ExecutionHistory = [] := by
  refine ⟨by decide, by decide, ?_, by decide⟩
  rfl

/-- C8 as amended: for every transition, the postcondition evaluated is that
of the first command descriptor (the fallback-to-first heuristic of the
source), and a non-fatal error naming that first command is raised exactly
when this postcondition rejects the transition. -/
theorem checkTransition_first_command {S C : Type} (sm : StateMachine S C)
    (tr : StateTransition S C) (c0 : CommandDescr S C) (post : S → C → S → Bool)
    (h0 : sm.Commands.head? = some c0) (hp : c0.Postcondition = some post) :
    (TestError.postconditionFailed c0.Name ∈ checkTransition sm tr ↔
      post tr.FromState tr.Command tr.ToState = false) := by
  unfold checkTransition
  rw [h0]
  dsimp only
  rw [hp]
  cases hres : post tr.FromState tr.Command tr.ToState <;>
    cases tr.Error <;> simp [hres]

/-- Witness for the amended C8 at `smAB` and the recorded transition of the
counterexample run. -/
theorem checkTransition_first_command_witness :
    smAB.Commands.head? = some cmdA ∧
      cmdA.Postcondition = some (fun _ _ _ => true) ∧
      (TestError.postconditionFailed cmdA.Name ∈
          checkTransition smAB ⟨1, 0, 1, none⟩ ↔
        (fun (_ : Int) (_ : Int) (_ : Int) => true) 0 1 1 = false) :=
  ⟨rfl, rfl,
    checkTransition_first_command smAB ⟨1, 0, 1, none⟩ cmdA
      (fun _ _ _ => true) rfl rfl⟩

/-! ## C9 — Filter with the always-true predicate -/

/-- Helper: with the always-true predicate the skip loop of the `Filter`
shrinker returns the underlying step's answer on its first iteration. -/
theorem filterStepAux_true {T σ : Type} (step : σ → Bool → Option T × σ)
    (fuel : Nat) (hf : 1 ≤ fuel) (st : σ) (a : Bool) :
    filterStepAux (fun _ => true) step fuel st a = step st a := by
  cases fuel with
  | zero => omega
  | succ n =>
    unfold filterStepAux
    cases hs : step st a with
    | mk o st' => cases o <;> simp

/-- Helper: one call of the `Filter` shrinker with the always-true predicate
behaves as one call of the underlying shrinker, re-wrapped. -/
theorem filterShrinker_true_stepS {T : Type} (s : Shrinker T) (fuel : Nat)
    (hf : 1 ≤ fuel) (a : Bool) :
    (filterShrinker (fun _ => true) fuel s).stepS a =
      ((s.stepS a).1, filterShrinker (fun _ => true) fuel (s.stepS a).2) := by
  unfold Shrinker.stepS filterShrinker
  dsimp only
  rw [filterStepAux_true s.step fuel hf s.state a]

/-- Helper: the `Filter` shrinker with the always-true predicate yields the
same candidate stream as the underlying shrinker for every accept sequence. -/
theorem filterShrinker_true_run {T : Type} (s : Shrinker T) (fuel : Nat)
    (hf : 1 ≤ fuel) (accepts : List Bool) :
    shrinkerRun (filterShrinker (fun _ => true) fuel s) accepts =
      shrinkerRun s accepts := by
  induction accepts generalizing s with
  | nil => rfl
  | cons a as ih =>
    simp only [shrinkerRun]
    rw [filterShrinker_true_stepS s fuel hf a]
    cases hs : s.stepS a with
    | mk o s₂ =>
      dsimp only
      exact congrArg (o :: ·) (ih s₂)

/-- Helper: with the always-true predicate the generation retry loop of
`Filter` accepts the first generated value, so generation agrees with the
underlying generator (value and resulting rng). -/
theorem filterGen_true {T : Type} [Inhabited T] (g : Generator T)
    (maxTries : Int) (fuel : Nat) (strat : Strategy) (r : Rng) (sz : Size)
    (v : T) (s : Shrinker T) (r' : Rng)
    (hgen : g strat r sz = some ((v, s), r')) :
    FilterGen g (fun _ => true) maxTries fuel strat r sz =
      some ((v, filterShrinker (fun _ => true) fuel s), r') := by
  unfold FilterGen
  dsimp only
  have hpos : ((if maxTries ≤ 0 then (1000 : Int) else maxTries).toNat) ≠ 0 := by
    split <;> omega
  obtain ⟨k, hk⟩ := Nat.exists_eq_succ_of_ne_zero hpos
  rw [hk]
  unfold filterGenLoop
  rw [hgen]
  simp

/-- C9: `Filter(g, λ_. true, n)` is observationally equivalent to `g`: for
the same rng and size it generates the same value with the same rng
advancement, and its shrinker yields the same candidate stream as `g`'s
shrinker for every sequence of accept inputs (for any positive fuel bound on
the skip loop, which the always-true predicate leaves after one iteration). -/
theorem filter_true_observationally_equiv {T : Type} [Inhabited T]
    (g : Generator T) (maxTries : Int) (fuel : Nat) (strat : Strategy)
    (r : Rng) (sz : Size) (v : T) (s : Shrinker T) (r' : Rng)
    (accepts : List Bool) (hfuel : 1 ≤ fuel)
    (hgen : g strat r sz = some ((v, s), r')) :
    FilterGen g (fun _ => true) maxTries fuel strat r sz =
        some ((v, filterShrinker (fun _ => true) fuel s), r') ∧
      shrinkerRun (filterShrinker (fun _ => true) fuel s) accepts =
        shrinkerRun s accepts :=
  ⟨filterGen_true g maxTries fuel strat r sz v s r' hgen,
    filterShrinker_true_run s fuel hfuel accepts⟩

/-- Witness for C9 at the constant generator `Const 5`. -/
theorem filter_true_observationally_equiv_witness :
    (1 ≤ 1) ∧
      ConstGen (5 : Int) .bfs (rngConst 0) ⟨0, 0⟩ =
        some ((5, emptyShrinker Int), rngConst 0) ∧
      (FilterGen (ConstGen (5 : Int)) (fun _ => true) 3 1 .bfs (rngConst 0) ⟨0, 0⟩ =
          some ((5, filterShrinker (fun _ => true) 1 (emptyShrinker Int)), rngConst 0) ∧
        shrinkerRun (filterShrinker (fun _ => true) 1 (emptyShrinker Int)) [true, false] =
          shrinkerRun (emptyShrinker Int) [true, false]) :=
  ⟨by decide, rfl,
    filter_true_observationally_equiv (ConstGen (5 : Int)) 3 1 .bfs (rngConst 0)
      ⟨0, 0⟩ 5 (emptyShrinker Int) (rngConst 0) [true, false] (by decide) rfl⟩

/-! ## C10 — range invariant of `Int64Range` and its shrinker -/

/-- Range invariant of a shrinker state: the recorded bounds are `m, M` and
every frontier entry lies inside them.  `push` rejects out-of-range values,
so the invariant is preserved by every state transformation of the closure. -/
def boundsOk (m M : Int) (st : I64State) : Prop :=
  st.min = m ∧ st.max = M ∧ ∀ x ∈ st.queue, m ≤ x ∧ x ≤ M

/-- Helper: `push` preserves the range invariant. -/
theorem push_boundsOk {m M : Int} {st : I64State} (x : Int)
    (h : boundsOk m M st) : boundsOk m M (st.push x) := by
  obtain ⟨hm, hM, hq⟩ := h
  unfold I64State.push
  split
  · exact ⟨hm, hM, hq⟩
  · split
    · exact ⟨hm, hM, hq⟩
    · rename_i hrange hseen
      refine ⟨hm, hM, ?_⟩
      intro y hy
      rcases List.mem_append.mp hy with hy | hy
      · exact hq y hy
      · rw [List.mem_singleton.mp hy]
        rcases not_or.mp hrange with ⟨hr1, hr2⟩
        omega

/-- Helper: a conditional `push` preserves the range invariant. -/
theorem itePush_boundsOk {m M : Int} {st : I64State} (c : Prop) [Decidable c]
    (x : Int) (h : boundsOk m M st) :
    boundsOk m M (if c then st.push x else st) := by
  split
  · exact push_boundsOk x h
  · exact h

/-- Helper: the bisection series preserves the range invariant. -/
theorem bisectLoop_boundsOk {m M : Int} (base : Int) (fuel : Nat)
    (series : Int) (st : I64State) (h : boundsOk m M st) :
    boundsOk m M (bisectLoop base st fuel series) := by
  induction fuel generalizing series st with
  | zero => exact h
  | succ n ih =>
    unfold bisectLoop
    split
    · exact h
    · dsimp only
      exact ih _ _ (itePush_boundsOk _ _ h)

/-- Helper: the conditional bisection block of `grow` preserves the range
invariant. -/
theorem iteBisect_boundsOk {m M : Int} {st : I64State} (c : Prop) [Decidable c]
    (base next : Int) (h : boundsOk m M st) :
    boundsOk m M
      (if c then bisectLoop base (if next ≠ base then st.push next else st) 8 next
       else st) := by
  split
  · exact bisectLoop_boundsOk _ _ _ _ (itePush_boundsOk _ _ h)
  · exact h

/-- Helper: `grow` establishes the range invariant (it clears the frontier
and refills it exclusively through `push`). -/
theorem grow_boundsOk {m M : Int} (st : I64State) (base : Int)
    (hm : st.min = m) (hM : st.max = M) : boundsOk m M (st.grow base) := by
  unfold I64State.grow
  dsimp only
  have h1 : boundsOk m M { st with queue := ([] : List Int) } :=
    ⟨hm, hM, by intro x hx; cases hx⟩
  apply itePush_boundsOk
  apply itePush_boundsOk
  apply itePush_boundsOk
  apply iteBisect_boundsOk
  exact itePush_boundsOk _ _ h1

/-- Helper: a successful pop returns a frontier member and a sub-frontier. -/
theorem popQ_mem {α : Type} (strat : Strategy) (q : List α) (v : α)
    (q' : List α) (h : popQ strat q = some (v, q')) :
    v ∈ q ∧ ∀ y ∈ q', y ∈ q := by
  cases q with
  | nil => cases strat <;> simp [popQ] at h
  | cons z zs =>
    cases strat with
    | bfs =>
      unfold popQ at h
      cases h
      exact ⟨List.mem_cons_self _ _, fun y hy => List.mem_cons_of_mem _ hy⟩
    | dfs =>
      unfold popQ at h
      cases h
      exact ⟨List.getLast_mem _, fun y hy => List.dropLast_subset _ hy⟩

/-- Helper: one call of the `int64ShrinkInit` closure preserves the range
invariant and only yields candidates inside the range. -/
theorem i64Step_boundsOk {m M : Int} (strat : Strategy) (st : I64State)
    (a : Bool) (h : boundsOk m M st) :
    boundsOk m M (i64Step strat st a).2 ∧
      ∀ v, (i64Step strat st a).1 = some v → m ≤ v ∧ v ≤ M := by
  unfold i64Step
  dsimp only
  set st1 := if a ∧ st.last ≠ st.cur
    then (({ st with cur := st.last } : I64State).grow st.last) else st with hst1
  have h1 : boundsOk m M st1 := by
    rw [hst1]
    split
    · exact grow_boundsOk _ _ h.1 h.2.1
    · exact h
  cases hpop : popQ strat st1.queue with
  | none =>
    dsimp only
    exact ⟨h1, fun v hv => by cases hv⟩
  | some p =>
    obtain ⟨v, q'⟩ := p
    obtain ⟨hvmem, hsub⟩ := popQ_mem strat _ v q' hpop
    dsimp only
    refine ⟨⟨h1.1, h1.2.1, ?_⟩, ?_⟩
    · intro y hy
      exact h1.2.2 y (hsub y hy)
    · intro w hw
      cases hw
      exact h1.2.2 v hvmem

/-- Helper: the state built by `int64ShrinkInit` satisfies the range
invariant for its own bounds. -/
theorem int64ShrinkInit_boundsOk (start m M : Int) :
    boundsOk m M (int64ShrinkInit start m M).2 := by
  unfold int64ShrinkInit
  dsimp only
  exact grow_boundsOk _ _ rfl rfl

/-- Helper: the clamped start lies inside an ordered range. -/
theorem clamp64_mem (x m M : Int) (h : m ≤ M) :
    m ≤ clamp64 x m M ∧ clamp64 x m M ≤ M := by
  unfold clamp64
  split
  · omega
  · split <;> omega

/-- Helper: every candidate yielded over any run from a state satisfying the
range invariant lies inside the range. -/
theorem i64Run_boundsOk {m M : Int} (strat : Strategy) (st : I64State)
    (accepts : List Bool) (x : Int) (h : boundsOk m M st)
    (hx : some x ∈ i64Run strat st accepts) : m ≤ x ∧ x ≤ M := by
  induction accepts generalizing st with
  | nil => cases hx
  | cons a as ih =>
    simp only [i64Run] at hx
    obtain ⟨hst, hyield⟩ := i64Step_boundsOk strat st a h
    cases hstep : i64Step strat st a with
    | mk o st' =>
      rw [hstep] at hx hst hyield
      dsimp only at hx hst hyield
      rcases List.mem_cons.mp hx with hx | hx
      · exact hyield x hx.symm
      · exact ih st' hst hx

/-- C10: for `min ≤ max`, whenever `Int64Range(min, max).Generate` returns,
the returned value lies in `[min, max]` (the drawn start is clamped into the
range), and every candidate its shrinker yields with `ok = true` over any
finite sequence of accept inputs also lies in `[min, max]`. -/
theorem int64Range_values_in_range (strat : Strategy) (mn mx : Int) (r : Rng)
    (v : Int) (st : I64State) (accepts : List Bool) (x : Int)
    (hle : mn ≤ mx)
    (hgen : (int64RangeGen mn mx r).map Prod.fst = some (v, st))
    (hx : some x ∈ i64Run strat st accepts) :
    (mn ≤ v ∧ v ≤ mx) ∧ (mn ≤ x ∧ x ≤ mx) := by
  unfold int64RangeGen at hgen
  dsimp only at hgen
  rw [if_neg (not_lt.mpr hle), if_neg (not_lt.mpr hle)] at hgen
  cases hintn : r.intn (wrap64 (mx - mn + 1)) with
  | none => rw [hintn] at hgen; cases hgen
  | some p =>
    obtain ⟨k, r₂⟩ := p
    rw [hintn] at hgen
    dsimp only [Option.map] at hgen
    cases hgen
    refine ⟨?_, ?_⟩
    · exact clamp64_mem (mn + k) mn mx hle
    · exact i64Run_boundsOk strat _ accepts x (int64ShrinkInit_boundsOk (mn + k) mn mx) hx

/-- Witness for C10 at `Int64Range(0, 10)` with every raw draw equal to 7:
the generated value is 7 and the first rejected-step candidate is 0, both in
range. -/
theorem int64Range_values_in_range_witness :
    ((0 : Int) ≤ 10) ∧
      (int64RangeGen 0 10 (rngConst 7)).map Prod.fst =
        some (7, ⟨0, 10, 0, 7, 7, [10, 6, 1, 2, 4, 0, 7], [0, 4, 2, 1, 6, 10]⟩) ∧
      (((0 : Int) ≤ 7 ∧ (7 : Int) ≤ 10) ∧ ((0 : Int) ≤ 0 ∧ (0 : Int) ≤ 10)) :=
  ⟨by decide, by decide,
    int64Range_values_in_range .bfs 0 10 (rngConst 7) 7
      ⟨0, 10, 0, 7, 7, [10, 6, 1, 2, 4, 0, 7], [0, 4, 2, 1, 6, 10]⟩ [false] 0
      (by decide) (by decide) (by decide)⟩

end Rapidx
